import Mathlib

/-!
Verification of the statistics aggregation and reporting engine of the
db-benchmark repository (source: src/unnamed/part_000, lines 440-593).

The engine consists of:
* calculateStats (lines 449-461): average, min, max, population standard
  deviation of a list of millisecond durations;
* formatDuration (lines 463-468): rendering of a duration as a string;
* the comparative insights of runBenchmark (lines 570-593): the Heavy to
  Lightweight ratio, the Heavy coefficient of variation, and the most
  consistent label.

JavaScript numbers are modelled by the type JSNum below: either a finite
real number, NaN, Infinity or -Infinity.  The model ignores the sign of
zero (0 is treated as +0), which is adequate here because every duration
the program produces is non-negative.  Functions of the source that can
in principle raise an exception are embedded into Except BenchError; the
source functions modelled here contain no throw statement and no input
validation, so every embedded result is Except.ok.
-/

namespace DBBench

/-- Model of a JavaScript number: a finite real, NaN, Infinity or
-Infinity (the sign of zero is not tracked). -/
inductive JSNum where
  | nan : JSNum
  | inf : JSNum
  | ninf : JSNum
  | fin : ℝ → JSNum

/-- JavaScript addition on JSNum (NaN is absorbing; Infinity + -Infinity
is NaN). -/
noncomputable def jsAdd : JSNum → JSNum → JSNum
  | .nan, _ => .nan
  | _, .nan => .nan
  | .inf, .ninf => .nan
  | .ninf, .inf => .nan
  | .inf, _ => .inf
  | _, .inf => .inf
  | .ninf, _ => .ninf
  | _, .ninf => .ninf
  | .fin a, .fin b => .fin (a + b)

/-- JavaScript unary negation on JSNum. -/
noncomputable def jsNeg : JSNum → JSNum
  | .nan => .nan
  | .inf => .ninf
  | .ninf => .inf
  | .fin a => .fin (-a)

/-- JavaScript subtraction: a - b = a + (-b). -/
noncomputable def jsSub (a b : JSNum) : JSNum := jsAdd a (jsNeg b)

/-- JavaScript Math.pow(x, 2). -/
noncomputable def jsPow2 : JSNum → JSNum
  | .nan => .nan
  | .inf => .inf
  | .ninf => .inf
  | .fin a => .fin (a ^ 2)

/-- JavaScript multiplication on JSNum. -/
noncomputable def jsMul : JSNum → JSNum → JSNum
  | .nan, _ => .nan
  | _, .nan => .nan
  | .inf, .inf => .inf
  | .inf, .ninf => .ninf
  | .ninf, .inf => .ninf
  | .ninf, .ninf => .inf
  | .inf, .fin b => if b = 0 then .nan else if 0 < b then .inf else .ninf
  | .fin a, .inf => if a = 0 then .nan else if 0 < a then .inf else .ninf
  | .ninf, .fin b => if b = 0 then .nan else if 0 < b then .ninf else .inf
  | .fin a, .ninf => if a = 0 then .nan else if 0 < a then .ninf else .inf
  | .fin a, .fin b => .fin (a * b)

/-- JavaScript division on JSNum.  Division of a nonzero finite number by
zero yields a signed infinity (zero is treated as +0), 0 / 0 yields NaN. -/
noncomputable def jsDiv : JSNum → JSNum → JSNum
  | .nan, _ => .nan
  | _, .nan => .nan
  | .inf, .inf => .nan
  | .inf, .ninf => .nan
  | .ninf, .inf => .nan
  | .ninf, .ninf => .nan
  | .inf, .fin b => if 0 ≤ b then .inf else .ninf
  | .ninf, .fin b => if 0 ≤ b then .ninf else .inf
  | .fin _, .inf => .fin 0
  | .fin _, .ninf => .fin 0
  | .fin a, .fin b =>
      if b = 0 then (if a = 0 then .nan else if 0 < a then .inf else .ninf)
      else .fin (a / b)

/-- Binary JavaScript Math.min (NaN is absorbing). -/
noncomputable def jsMin2 : JSNum → JSNum → JSNum
  | .nan, _ => .nan
  | _, .nan => .nan
  | .ninf, _ => .ninf
  | _, .ninf => .ninf
  | .inf, b => b
  | a, .inf => a
  | .fin a, .fin b => .fin (min a b)

/-- Binary JavaScript Math.max (NaN is absorbing). -/
noncomputable def jsMax2 : JSNum → JSNum → JSNum
  | .nan, _ => .nan
  | _, .nan => .nan
  | .inf, _ => .inf
  | _, .inf => .inf
  | .ninf, b => b
  | a, .ninf => a
  | .fin a, .fin b => .fin (max a b)

/-- JavaScript Math.min(...values): the fold of binary Math.min over the
list, starting from Infinity (Math.min of no arguments). -/
noncomputable def jsMinList (values : List JSNum) : JSNum :=
  values.foldl jsMin2 .inf

/-- JavaScript Math.max(...values): the fold of binary Math.max over the
list, starting from -Infinity (Math.max of no arguments). -/
noncomputable def jsMaxList (values : List JSNum) : JSNum :=
  values.foldl jsMax2 .ninf

/-- The JavaScript strict less-than comparison: any comparison with NaN
is false. -/
noncomputable def jsLt : JSNum → JSNum → Bool
  | .nan, _ => false
  | _, .nan => false
  | .ninf, .ninf => false
  | .ninf, _ => true
  | _, .ninf => false
  | .inf, _ => false
  | _, .inf => true
  | .fin a, .fin b => decide (a < b)

/-- JavaScript Math.sqrt: NaN for NaN and for negative finite inputs,
Infinity for Infinity. -/
noncomputable def jsSqrt : JSNum → JSNum
  | .nan => .nan
  | .inf => .inf
  | .ninf => .nan
  | .fin a => if a < 0 then .nan else .fin (Real.sqrt a)

/-- The Stats record of the source (interface Stats, part_000 lines
442-447): average, minimum, maximum and standard deviation. -/
structure Stats where
  avg : JSNum
  min : JSNum
  max : JSNum
  sd : JSNum

/-- The error kinds named by the specification.  The source code never
raises either of them. -/
inductive BenchError where
  | invalidInput : BenchError
  | arithmeticError : BenchError

/-- Embedding of calculateStats (part_000 lines 449-461):

  const n = values.length;
  const avg = values.reduce((a, b) => a + b, 0) / n;
  const min = Math.min(...values);
  const max = Math.max(...values);
  const variance = values.reduce((sum, val) => sum + Math.pow(val - avg, 2), 0) / n;
  const sd = Math.sqrt(variance);
  return { avg, min, max, sd };

The result is in Except BenchError to make the error behaviour explicit:
the source body contains no emptiness check and no throw statement, so
the embedding always returns Except.ok. -/
noncomputable def calculateStats (values : List JSNum) : Except BenchError Stats :=
  let n : JSNum := .fin (values.length : ℝ)
  let avg := jsDiv (values.foldl jsAdd (.fin 0)) n
  let mn := jsMinList values
  let mx := jsMaxList values
  let variance :=
    jsDiv (values.foldl (fun sum val => jsAdd sum (jsPow2 (jsSub val avg))) (.fin 0)) n
  let sd := jsSqrt variance
  .ok { avg := avg, min := mn, max := mx, sd := sd }

/-- The record of per-label statistics built by runBenchmark (part_000
lines 556-561), in insertion order Lightweight, Medium, Heavy, Total. -/
structure BenchmarkStats where
  Lightweight : Stats
  Medium : Stats
  Heavy : Stats
  Total : Stats

/-- The ratio insight of runBenchmark (lines 570-575):
stats.Heavy.avg / stats.Lightweight.avg.  The source performs no
zero-divisor check and contains no throw, so the embedding always
returns Except.ok. -/
noncomputable def ratioInsight (stats : BenchmarkStats) : Except BenchError JSNum :=
  .ok (jsDiv stats.Heavy.avg stats.Lightweight.avg)

/-- The coefficient-of-variation insight of runBenchmark (lines 576-581):
(stats.Heavy.sd / stats.Heavy.avg) * 100.  No zero-divisor check, no
throw, hence always Except.ok. -/
noncomputable def insightCV (stats : BenchmarkStats) : Except BenchError JSNum :=
  .ok (jsMul (jsDiv stats.Heavy.sd stats.Heavy.avg) (.fin 100))

/-- The coefficient of variation of one table entry, sd / avg, as it
appears in the reduce callback of the most-consistent computation. -/
noncomputable def entryCV (e : String × Stats) : JSNum :=
  jsDiv e.2.sd e.2.avg

/-- The reduce callback of the most-consistent computation (lines
585-589): keep the current minimum unless the new entry has a strictly
smaller coefficient of variation. -/
noncomputable def pickMin (mn cur : String × Stats) : String × Stats :=
  if jsLt (entryCV cur) (entryCV mn) then cur else mn

/-- Embedding of the mostConsistentKey computation of runBenchmark
(lines 582-593): filter out the "Total" entry, return "N/A" when nothing
remains, otherwise reduce with pickMin starting from the first remaining
entry (JavaScript reduce with an initial value visits every element,
including the first) and return the chosen label. -/
noncomputable def mostConsistentKey (entries : List (String × Stats)) : String :=
  match entries.filter (fun e => e.1 ≠ "Total") with
  | [] => "N/A"
  | first :: rest => ((first :: rest).foldl pickMin first).1

/-- The decimal digit string of a remainder 0 ≤ r < 10 ^ f, left-padded
with zeros to exactly f digits. -/
def decimalDigits (f : ℕ) (r : ℤ) : String :=
  let s := toString r
  ⟨List.replicate (f - s.length) '0'⟩ ++ s

/-- Number.prototype.toFixed(f) for an exact rational input: round
x * 10 ^ f to the nearest integer, ties towards the larger integer (the
ECMAScript rule), and print with f digits after the decimal point. -/
def toFixed (f : ℕ) (x : ℚ) : String :=
  let n : ℤ := ⌊x * 10 ^ f + 1 / 2⌋
  if f = 0 then toString n
  else toString (n / 10 ^ f) ++ "." ++ decimalDigits f (n % 10 ^ f)

/-- Number.prototype.toFixed(f) for a finite real input (same rounding
rule as toFixed). -/
noncomputable def toFixedR (f : ℕ) (x : ℝ) : String :=
  let n : ℤ := ⌊x * 10 ^ f + 1 / 2⌋
  if f = 0 then toString n
  else toString (n / 10 ^ f) ++ "." ++ decimalDigits f (n % 10 ^ f)

/-- toFixed lifted to JSNum, matching JavaScript's rendering of the
non-finite values. -/
noncomputable def jsToFixed (f : ℕ) : JSNum → String
  | .nan => "NaN"
  | .inf => "Infinity"
  | .ninf => "-Infinity"
  | .fin x => toFixedR f x

/-- Embedding of formatDuration (part_000 lines 463-468):

  if (ms >= 1000) return (ms / 1000).toFixed(2) + "s";
  return ms.toFixed(0) + "ms";

Durations are modelled as exact rationals. -/
def formatDuration (ms : ℚ) : String :=
  if ms ≥ 1000 then toFixed 2 (ms / 1000) ++ "s"
  else toFixed 0 ms ++ "ms"

/-- The textual rendering of the ratio insight (line 573 of the source):
(stats.Heavy.avg / stats.Lightweight.avg).toFixed(1) + "x". -/
noncomputable def ratioInsightText (stats : BenchmarkStats) : String :=
  jsToFixed 1 (jsDiv stats.Heavy.avg stats.Lightweight.avg) ++ "x"

/-! ### Basic evaluation lemmas for the JSNum operations -/

@[simp] theorem jsAdd_fin (a b : ℝ) : jsAdd (.fin a) (.fin b) = .fin (a + b) := rfl

@[simp] theorem jsNeg_fin (a : ℝ) : jsNeg (.fin a) = .fin (-a) := rfl

@[simp] theorem jsSub_fin (a b : ℝ) : jsSub (.fin a) (.fin b) = .fin (a - b) := by
  simp [jsSub, sub_eq_add_neg]

@[simp] theorem jsPow2_fin (a : ℝ) : jsPow2 (.fin a) = .fin (a ^ 2) := rfl

@[simp] theorem jsMin2_fin (a b : ℝ) : jsMin2 (.fin a) (.fin b) = .fin (min a b) := rfl

@[simp] theorem jsMax2_fin (a b : ℝ) : jsMax2 (.fin a) (.fin b) = .fin (max a b) := rfl

@[simp] theorem jsMin2_inf_fin (a : ℝ) : jsMin2 .inf (.fin a) = .fin a := rfl

@[simp] theorem jsMax2_ninf_fin (a : ℝ) : jsMax2 .ninf (.fin a) = .fin a := rfl

theorem jsDiv_fin_of_ne (a b : ℝ) (hb : b ≠ 0) :
    jsDiv (.fin a) (.fin b) = .fin (a / b) := by
  simp [jsDiv, hb]

@[simp] theorem jsLt_fin (a b : ℝ) : jsLt (.fin a) (.fin b) = decide (a < b) := rfl

theorem jsSqrt_fin_of_nonneg (a : ℝ) (h : 0 ≤ a) :
    jsSqrt (.fin a) = .fin (Real.sqrt a) := by
  simp [jsSqrt, not_lt.mpr h]

/-! ### Fold characterizations over lists of finite values -/

theorem foldl_jsAdd (l : List ℝ) (a : ℝ) :
    (l.map JSNum.fin).foldl jsAdd (.fin a) = .fin (a + l.sum) := by
  induction l generalizing a with
  | nil => simp
  | cons x t ih => simp [ih, add_assoc]

theorem foldl_jsMin2 (l : List ℝ) (a : ℝ) :
    (l.map JSNum.fin).foldl jsMin2 (.fin a) = .fin (l.foldl min a) := by
  induction l generalizing a with
  | nil => simp
  | cons x t ih => simp [ih]

theorem foldl_jsMax2 (l : List ℝ) (a : ℝ) :
    (l.map JSNum.fin).foldl jsMax2 (.fin a) = .fin (l.foldl max a) := by
  induction l generalizing a with
  | nil => simp
  | cons x t ih => simp [ih]

theorem jsMinList_cons (x : ℝ) (t : List ℝ) :
    jsMinList ((x :: t).map .fin) = .fin (t.foldl min x) := by
  simp [jsMinList, foldl_jsMin2]

theorem jsMaxList_cons (x : ℝ) (t : List ℝ) :
    jsMaxList ((x :: t).map .fin) = .fin (t.foldl max x) := by
  simp [jsMaxList, foldl_jsMax2]

theorem foldl_sqdev (l : List ℝ) (A : ℝ) (c : ℝ) :
    (l.map JSNum.fin).foldl
        (fun sum val => jsAdd sum (jsPow2 (jsSub val (.fin A)))) (.fin c)
      = .fin (c + (l.map (fun v => (v - A) ^ 2)).sum) := by
  induction l generalizing c with
  | nil => simp
  | cons x t ih => simp [ih, add_assoc]

/-- Master characterization: on a non-empty list of finite values,
calculateStats returns the exact mean, the fold-minimum, the
fold-maximum, and the square root of the population variance. -/
theorem calculateStats_cons (x : ℝ) (t : List ℝ) :
    calculateStats ((x :: t).map .fin) =
      .ok { avg := .fin ((x :: t).sum / ((x :: t).length : ℝ)),
            min := .fin (t.foldl min x),
            max := .fin (t.foldl max x),
            sd := .fin (Real.sqrt
              (((x :: t).map
                  (fun v => (v - (x :: t).sum / ((x :: t).length : ℝ)) ^ 2)).sum
                / ((x :: t).length : ℝ))) } := by
  have hlen : (x :: t).length ≠ 0 := by simp
  have hn : (((x :: t).length : ℕ) : ℝ) ≠ 0 := Nat.cast_ne_zero.mpr hlen
  have hV : 0 ≤ (((x :: t).map
      (fun v => (v - (x :: t).sum / ((x :: t).length : ℝ)) ^ 2)).sum
        / ((x :: t).length : ℝ)) := by
    apply div_nonneg
    · apply List.sum_nonneg
      intro y hy
      obtain ⟨v, _, rfl⟩ := List.mem_map.mp hy
      positivity
    · positivity
  simp only [calculateStats, List.length_map]
  rw [foldl_jsAdd, zero_add, jsDiv_fin_of_ne _ _ hn, jsMinList_cons, jsMaxList_cons,
    foldl_sqdev, zero_add, jsDiv_fin_of_ne _ _ hn, jsSqrt_fin_of_nonneg _ hV]

/-- The fold of min over a list starting at x is the least element of
x :: t. -/
theorem foldl_min_spec {α : Type*} [LinearOrder α] (t : List α) (x : α) :
    t.foldl min x ∈ x :: t ∧ ∀ y ∈ x :: t, t.foldl min x ≤ y := by
  induction t generalizing x with
  | nil => simp
  | cons z zs ih =>
    obtain ⟨hmem, hb⟩ := ih (min x z)
    have he : (z :: zs).foldl min x = zs.foldl min (min x z) := rfl
    constructor
    · rw [he]
      rcases List.mem_cons.mp hmem with h | h
      · rcases min_choice x z with hc | hc
        · rw [h, hc]; exact List.mem_cons_self x (z :: zs)
        · rw [h, hc]; exact List.mem_cons_of_mem x (List.mem_cons_self z zs)
      · exact List.mem_cons_of_mem x (List.mem_cons_of_mem z h)
    · intro y hy
      rw [he]
      rcases List.mem_cons.mp hy with rfl | hy'
      · exact le_trans (hb _ (List.mem_cons_self _ _)) (min_le_left _ _)
      rcases List.mem_cons.mp hy' with rfl | hy''
      · exact le_trans (hb _ (List.mem_cons_self _ _)) (min_le_right _ _)
      · exact hb y (List.mem_cons_of_mem _ hy'')

/-- The fold of max over a list starting at x is the greatest element of
x :: t. -/
theorem foldl_max_spec {α : Type*} [LinearOrder α] (t : List α) (x : α) :
    t.foldl max x ∈ x :: t ∧ ∀ y ∈ x :: t, y ≤ t.foldl max x := by
  induction t generalizing x with
  | nil => simp
  | cons z zs ih =>
    obtain ⟨hmem, hb⟩ := ih (max x z)
    have he : (z :: zs).foldl max x = zs.foldl max (max x z) := rfl
    constructor
    · rw [he]
      rcases List.mem_cons.mp hmem with h | h
      · rcases max_choice x z with hc | hc
        · rw [h, hc]; exact List.mem_cons_self x (z :: zs)
        · rw [h, hc]; exact List.mem_cons_of_mem x (List.mem_cons_self z zs)
      · exact List.mem_cons_of_mem x (List.mem_cons_of_mem z h)
    · intro y hy
      rw [he]
      rcases List.mem_cons.mp hy with rfl | hy'
      · exact le_trans (le_max_left _ _) (hb _ (List.mem_cons_self _ _))
      rcases List.mem_cons.mp hy' with rfl | hy''
      · exact le_trans (le_max_right _ _) (hb _ (List.mem_cons_self _ _))
      · exact hb y (List.mem_cons_of_mem _ hy'')

/-- Evaluation of calculateStats on the empty list: no error is raised;
the average is 0 / 0 = NaN, the minimum is Math.min() = Infinity, the
maximum is Math.max() = -Infinity, and the standard deviation is NaN. -/
theorem calculateStats_nil_eval :
    calculateStats [] =
      .ok { avg := .nan, min := .inf, max := .ninf, sd := .nan } := by
  simp [calculateStats, jsMinList, jsMaxList, jsDiv, jsSqrt]

/-- C1 counterexample: on the empty sequence, calculateStats does not
fail with InvalidInput; it returns the record with average NaN, minimum
Infinity, maximum -Infinity and standard deviation NaN. -/
theorem claim1_counterexample :
    calculateStats [] =
        .ok { avg := .nan, min := .inf, max := .ninf, sd := .nan } ∧
      calculateStats [] ≠ Except.error BenchError.invalidInput := by
  refine ⟨calculateStats_nil_eval, ?_⟩
  rw [calculateStats_nil_eval]
  simp

/-- C1 (amended): calculateStats never fails on any input (the source
contains no emptiness check and no throw); in particular on the empty
sequence it silently returns average NaN, minimum Infinity, maximum
-Infinity and standard deviation NaN. -/
theorem claim1_no_error_on_empty :
    (∀ values : List JSNum, ∃ s, calculateStats values = .ok s) ∧
      calculateStats [] =
        .ok { avg := .nan, min := .inf, max := .ninf, sd := .nan } :=
  ⟨fun _ => ⟨_, rfl⟩, calculateStats_nil_eval⟩

/-- C2 counterexample: with a degenerate all-zero Heavy sequence (whose
statistics are all zero), the coefficient-of-variation insight produces
NaN and the ratio insight with a zero Lightweight average produces
Infinity; neither fails with ArithmeticError. -/
theorem claim2_counterexample :
    calculateStats ([0, 0, 0].map .fin) =
        .ok { avg := .fin 0, min := .fin 0, max := .fin 0, sd := .fin 0 } ∧
      insightCV ⟨⟨.fin 20, .fin 10, .fin 30, .fin 5⟩,
          ⟨.fin 200, .fin 100, .fin 300, .fin 50⟩,
          ⟨.fin 0, .fin 0, .fin 0, .fin 0⟩,
          ⟨.fin 220, .fin 110, .fin 330, .fin 55⟩⟩ = .ok .nan ∧
      insightCV ⟨⟨.fin 20, .fin 10, .fin 30, .fin 5⟩,
          ⟨.fin 200, .fin 100, .fin 300, .fin 50⟩,
          ⟨.fin 0, .fin 0, .fin 0, .fin 0⟩,
          ⟨.fin 220, .fin 110, .fin 330, .fin 55⟩⟩ ≠
        Except.error BenchError.arithmeticError ∧
      ratioInsight ⟨⟨.fin 0, .fin 0, .fin 0, .fin 0⟩,
          ⟨.fin 200, .fin 100, .fin 300, .fin 50⟩,
          ⟨.fin 2000, .fin 1000, .fin 3000, .fin 500⟩,
          ⟨.fin 2200, .fin 1100, .fin 3300, .fin 550⟩⟩ = .ok .inf := by
  refine ⟨?_, ?_, ?_, ?_⟩
  · rw [show ([0, 0, 0] : List ℝ) = 0 :: [0, 0] from rfl, calculateStats_cons]
    norm_num
  · simp [insightCV, jsDiv, jsMul]
  · simp [insightCV, jsDiv, jsMul]
  · norm_num [ratioInsight, jsDiv]

/-- C2 (amended): the insight computations perform no zero-divisor check
and never fail; a zero Lightweight average makes the ratio Infinity (for
a positive Heavy average), and a zero Heavy average together with a zero
Heavy standard deviation makes the coefficient of variation NaN. -/
theorem claim2_div_by_zero_silent (s : BenchmarkStats) (b : ℝ) :
    (s.Lightweight.avg = .fin 0 → s.Heavy.avg = .fin b → 0 < b →
      ratioInsight s = .ok .inf) ∧
    (s.Heavy.avg = .fin 0 → s.Heavy.sd = .fin 0 → insightCV s = .ok .nan) := by
  constructor
  · intro h1 h2 h3
    rw [ratioInsight, h1, h2]
    simp [jsDiv, h3.ne', h3]
  · intro h1 h2
    rw [insightCV, h1, h2]
    simp [jsDiv, jsMul]

/-- Witness for the amended C2 at concrete inputs. -/
theorem claim2_div_by_zero_silent_witness :
    ratioInsight ⟨⟨.fin 0, .fin 0, .fin 0, .fin 0⟩,
        ⟨.fin 200, .fin 100, .fin 300, .fin 50⟩,
        ⟨.fin 2000, .fin 1000, .fin 3000, .fin 500⟩,
        ⟨.fin 2200, .fin 1100, .fin 3300, .fin 550⟩⟩ = .ok .inf ∧
      insightCV ⟨⟨.fin 20, .fin 10, .fin 30, .fin 5⟩,
        ⟨.fin 200, .fin 100, .fin 300, .fin 50⟩,
        ⟨.fin 0, .fin 0, .fin 0, .fin 0⟩,
        ⟨.fin 220, .fin 110, .fin 330, .fin 55⟩⟩ = .ok .nan :=
  ⟨(claim2_div_by_zero_silent _ 2000).1 rfl rfl (by norm_num),
   (claim2_div_by_zero_silent _ 0).2 rfl rfl⟩

/-- C3: on every non-empty sequence of finite durations, calculateStats
returns the arithmetic mean, the smallest value, the largest value, and
the square root of the population variance (mean of squared deviations,
divided by N). -/
theorem claim3_stats_formulas (l : List ℝ) (h : l ≠ []) :
    ∃ s, calculateStats (l.map .fin) = .ok s ∧
      s.avg = .fin (l.sum / (l.length : ℝ)) ∧
      (∃ m, s.min = .fin m ∧ m ∈ l ∧ ∀ y ∈ l, m ≤ y) ∧
      (∃ M, s.max = .fin M ∧ M ∈ l ∧ ∀ y ∈ l, y ≤ M) ∧
      s.sd = .fin (Real.sqrt
        ((l.map (fun v => (v - l.sum / (l.length : ℝ)) ^ 2)).sum
          / (l.length : ℝ))) := by
  obtain ⟨x, t, rfl⟩ := List.exists_cons_of_ne_nil h
  refine ⟨_, calculateStats_cons x t, rfl, ?_, ?_, rfl⟩
  · obtain ⟨hmem, hb⟩ := foldl_min_spec t x
    exact ⟨t.foldl min x, rfl, hmem, hb⟩
  · obtain ⟨hmem, hb⟩ := foldl_max_spec t x
    exact ⟨t.foldl max x, rfl, hmem, hb⟩

/-- Witness for C3 at the sequence 1, 2, 3. -/
theorem claim3_stats_formulas_witness :
    ∃ s, calculateStats ([1, 2, 3].map .fin) = .ok s ∧
      s.avg = .fin (([1, 2, 3] : List ℝ).sum / (([1, 2, 3] : List ℝ).length : ℝ)) ∧
      (∃ m, s.min = .fin m ∧ m ∈ ([1, 2, 3] : List ℝ) ∧
        ∀ y ∈ ([1, 2, 3] : List ℝ), m ≤ y) ∧
      (∃ M, s.max = .fin M ∧ M ∈ ([1, 2, 3] : List ℝ) ∧
        ∀ y ∈ ([1, 2, 3] : List ℝ), y ≤ M) ∧
      s.sd = .fin (Real.sqrt
        ((([1, 2, 3] : List ℝ).map
            (fun v => (v - ([1, 2, 3] : List ℝ).sum /
              (([1, 2, 3] : List ℝ).length : ℝ)) ^ 2)).sum
          / (([1, 2, 3] : List ℝ).length : ℝ))) :=
  claim3_stats_formulas [1, 2, 3] (by simp)

/-- C6: on non-empty sequences of finite durations, calculateStats is
invariant under permutation of the input: the result depends only on the
multiset of values (exactly, in the exact-arithmetic model). -/
theorem claim6_permutation_invariant (l₁ l₂ : List ℝ) (h : l₁ ≠ [])
    (hp : l₁.Perm l₂) :
    calculateStats (l₁.map .fin) = calculateStats (l₂.map .fin) := by
  have h₂ : l₂ ≠ [] := by
    intro he
    rw [he] at hp
    exact h hp.eq_nil
  obtain ⟨x₁, t₁, rfl⟩ := List.exists_cons_of_ne_nil h
  obtain ⟨x₂, t₂, rfl⟩ := List.exists_cons_of_ne_nil h₂
  have hsum : (x₁ :: t₁).sum = (x₂ :: t₂).sum := hp.sum_eq
  have hlen : (x₁ :: t₁).length = (x₂ :: t₂).length := hp.length_eq
  have hmin : t₁.foldl min x₁ = t₂.foldl min x₂ := by
    obtain ⟨hm₁, hb₁⟩ := foldl_min_spec t₁ x₁
    obtain ⟨hm₂, hb₂⟩ := foldl_min_spec t₂ x₂
    exact le_antisymm (hb₁ _ (hp.mem_iff.mpr hm₂)) (hb₂ _ (hp.mem_iff.mp hm₁))
  have hmax : t₁.foldl max x₁ = t₂.foldl max x₂ := by
    obtain ⟨hm₁, hb₁⟩ := foldl_max_spec t₁ x₁
    obtain ⟨hm₂, hb₂⟩ := foldl_max_spec t₂ x₂
    exact le_antisymm (hb₂ _ (hp.mem_iff.mp hm₁)) (hb₁ _ (hp.mem_iff.mpr hm₂))
  rw [calculateStats_cons, calculateStats_cons, hsum, hlen, hmin, hmax,
    List.Perm.sum_eq (hp.map _)]

/-- Witness for C6 on the permuted pair 1, 2 and 2, 1. -/
theorem claim6_permutation_invariant_witness :
    calculateStats (([1, 2] : List ℝ).map .fin) =
      calculateStats (([2, 1] : List ℝ).map .fin) :=
  claim6_permutation_invariant [1, 2] [2, 1] (by simp) (List.Perm.swap 2 1 [])

/-- C7: on every non-empty sequence of finite durations, the summary
statistics satisfy minimum <= average <= maximum. -/
theorem claim7_min_le_avg_le_max (l : List ℝ) (h : l ≠ []) :
    ∃ s m a M, calculateStats (l.map .fin) = .ok s ∧
      s.min = .fin m ∧ s.avg = .fin a ∧ s.max = .fin M ∧ m ≤ a ∧ a ≤ M := by
  obtain ⟨x, t, rfl⟩ := List.exists_cons_of_ne_nil h
  have hn : (0 : ℝ) < ((x :: t).length : ℝ) := by
    exact_mod_cast Nat.succ_pos t.length
  refine ⟨_, _, _, _, calculateStats_cons x t, rfl, rfl, rfl, ?_, ?_⟩
  · rw [le_div_iff₀ hn]
    have hb := (foldl_min_spec t x).2
    have := List.card_nsmul_le_sum (x :: t) (t.foldl min x) hb
    rw [nsmul_eq_mul] at this
    linarith [this]
  · rw [div_le_iff₀ hn]
    have hb := (foldl_max_spec t x).2
    have := List.sum_le_card_nsmul (x :: t) (t.foldl max x) hb
    rw [nsmul_eq_mul] at this
    linarith [this]

/-- Witness for C7 at the sequence 3, 1, 2. -/
theorem claim7_min_le_avg_le_max_witness :
    ∃ s m a M, calculateStats (([3, 1, 2] : List ℝ).map .fin) = .ok s ∧
      s.min = .fin m ∧ s.avg = .fin a ∧ s.max = .fin M ∧ m ≤ a ∧ a ≤ M :=
  claim7_min_le_avg_le_max [3, 1, 2] (by simp)

/-- C8: on every non-empty sequence all of whose values equal v, the
average is v and the standard deviation is 0. -/
theorem claim8_constant_sequence (l : List ℝ) (v : ℝ) (h : l ≠ [])
    (hv : ∀ y ∈ l, y = v) :
    ∃ s, calculateStats (l.map .fin) = .ok s ∧
      s.avg = .fin v ∧ s.sd = .fin 0 := by
  obtain ⟨x, t, rfl⟩ := List.exists_cons_of_ne_nil h
  have hn : (((x :: t).length : ℕ) : ℝ) ≠ 0 := Nat.cast_ne_zero.mpr (by simp)
  have hsum : (x :: t).sum = ((x :: t).length : ℝ) * v := by
    rw [List.sum_eq_card_nsmul (x :: t) v hv, nsmul_eq_mul]
  have havg : (x :: t).sum / ((x :: t).length : ℝ) = v := by
    rw [hsum, mul_div_cancel_left₀ _ hn]
  refine ⟨_, calculateStats_cons x t, ?_, ?_⟩
  · rw [havg]
  · have hz : ((x :: t).map
        (fun w => (w - (x :: t).sum / ((x :: t).length : ℝ)) ^ 2)).sum = 0 := by
      apply List.sum_eq_zero
      intro y hy
      obtain ⟨w, hw, rfl⟩ := List.mem_map.mp hy
      rw [havg, hv w hw, sub_self]
      ring
    rw [hz, zero_div, Real.sqrt_zero]

/-- Witness for C8 at the constant sequence 5, 5. -/
theorem claim8_constant_sequence_witness :
    ∃ s, calculateStats (([5, 5] : List ℝ).map .fin) = .ok s ∧
      s.avg = .fin 5 ∧ s.sd = .fin 0 :=
  claim8_constant_sequence [5, 5] 5 (by simp) (by intro y hy; simpa using hy)

/-- Characterization of the reduce of pickMin: when every visited entry
has a finite coefficient of variation, the fold returns either the
initial entry (which is then a non-strict minimum) or the first element
of the list that strictly improves on everything before it and is a
non-strict minimum of everything after it. -/
theorem foldl_pickMin_spec (v : String × Stats → ℝ) :
    ∀ (l : List (String × Stats)) (init : String × Stats),
      (∀ e ∈ l, entryCV e = .fin (v e)) → entryCV init = .fin (v init) →
      (l.foldl pickMin init = init ∧ ∀ e ∈ l, v init ≤ v e) ∨
      (∃ l₁ l₂, l = l₁ ++ l.foldl pickMin init :: l₂ ∧
        v (l.foldl pickMin init) < v init ∧
        (∀ e ∈ l₁, v (l.foldl pickMin init) < v e) ∧
        (∀ e ∈ l₂, v (l.foldl pickMin init) ≤ v e)) := by
  intro l
  induction l with
  | nil =>
    intro init _ _
    left
    simp
  | cons c t ih =>
    intro init hl hinit
    have hc : entryCV c = .fin (v c) := hl c (List.mem_cons_self c t)
    have ht : ∀ e ∈ t, entryCV e = .fin (v e) :=
      fun e he => hl e (List.mem_cons_of_mem c he)
    have hfold : (c :: t).foldl pickMin init = t.foldl pickMin (pickMin init c) := rfl
    by_cases hlt : v c < v init
    · have hpick : pickMin init c = c := by
        simp [pickMin, hc, hinit, hlt]
      rw [hfold, hpick]
      rcases ih c ht hc with ⟨heq, hb⟩ | ⟨t₁, t₂, hsplit, hvr, h₁, h₂⟩
      · right
        refine ⟨[], t, ?_, ?_, ?_, ?_⟩
        · rw [heq, List.nil_append]
        · rw [heq]; exact hlt
        · intro e he; exact absurd he (List.not_mem_nil e)
        · intro e he; rw [heq]; exact hb e he
      · right
        refine ⟨c :: t₁, t₂, ?_, lt_trans hvr hlt, ?_, h₂⟩
        · rw [List.cons_append, ← hsplit]
        · intro e he
          rcases List.mem_cons.mp he with rfl | he'
          · exact hvr
          · exact h₁ e he'
    · have hpick : pickMin init c = init := by
        simp [pickMin, hc, hinit, hlt]
      rw [hfold, hpick]
      rcases ih init ht hinit with ⟨heq, hb⟩ | ⟨t₁, t₂, hsplit, hvr, h₁, h₂⟩
      · left
        refine ⟨heq, ?_⟩
        intro e he
        rcases List.mem_cons.mp he with rfl | he'
        · exact not_lt.mp hlt
        · exact hb e he'
      · right
        refine ⟨c :: t₁, t₂, ?_, hvr, ?_, h₂⟩
        · rw [List.cons_append, ← hsplit]
        · intro e he
          rcases List.mem_cons.mp he with rfl | he'
          · exact lt_of_lt_of_le hvr (not_lt.mp hlt)
          · exact h₁ e he'

/-- C5: the most-consistent computation returns the sentinel "N/A" when
no entry other than "Total" exists; otherwise, provided every non-Total
entry has a finite coefficient of variation, it returns the label of the
entry with the smallest coefficient of variation, ties broken in favour
of the first occurrence in iteration order (the returned entry is
strictly smaller than everything before it and no larger than everything
after it). -/
theorem claim5_most_consistent :
    (∀ entries : List (String × Stats),
        entries.filter (fun e => e.1 ≠ "Total") = [] →
        mostConsistentKey entries = "N/A") ∧
    (∀ (entries : List (String × Stats)) (v : String × Stats → ℝ),
        (∀ e ∈ entries.filter (fun e => e.1 ≠ "Total"), entryCV e = .fin (v e)) →
        entries.filter (fun e => e.1 ≠ "Total") ≠ [] →
        ∃ l₁ r l₂,
          entries.filter (fun e => e.1 ≠ "Total") = l₁ ++ r :: l₂ ∧
          mostConsistentKey entries = r.1 ∧
          (∀ e ∈ l₁, v r < v e) ∧ (∀ e ∈ l₂, v r ≤ v e)) := by
  constructor
  · intro entries h
    simp only [mostConsistentKey, h]
  · intro entries v hv hne
    obtain ⟨first, rest, hF⟩ :=
      List.exists_cons_of_ne_nil hne
    have hv' : ∀ e ∈ first :: rest, entryCV e = .fin (v e) := by
      rw [← hF]; exact hv
    have hkey : mostConsistentKey entries = ((first :: rest).foldl pickMin first).1 := by
      simp only [mostConsistentKey, hF]
    rcases foldl_pickMin_spec v (first :: rest) first hv'
        (hv' first (List.mem_cons_self first rest)) with
      ⟨heq, hb⟩ | ⟨t₁, t₂, hsplit, _, h₁, h₂⟩
    · refine ⟨[], first, rest, by rw [hF, List.nil_append], ?_, ?_, ?_⟩
      · rw [hkey, heq]
      · intro e he; exact absurd he (List.not_mem_nil e)
      · intro e he; exact hb e (List.mem_cons_of_mem first he)
    · exact ⟨t₁, (first :: rest).foldl pickMin first, t₂, hF.trans hsplit,
        hkey, h₁, h₂⟩

/-- Witness for C5 on three labels with coefficients of variation 1/10,
1/20 and 1/5. -/
theorem claim5_most_consistent_witness :
    ∃ l₁ r l₂,
      ([("Lightweight", ⟨.fin 1, .fin 1, .fin 1, .fin (1 / 10)⟩),
        ("Medium", ⟨.fin 1, .fin 1, .fin 1, .fin (1 / 20)⟩),
        ("Heavy", ⟨.fin 1, .fin 1, .fin 1, .fin (1 / 5)⟩)] :
          List (String × Stats)).filter (fun e => e.1 ≠ "Total") = l₁ ++ r :: l₂ ∧
      mostConsistentKey
        [("Lightweight", ⟨.fin 1, .fin 1, .fin 1, .fin (1 / 10)⟩),
         ("Medium", ⟨.fin 1, .fin 1, .fin 1, .fin (1 / 20)⟩),
         ("Heavy", ⟨.fin 1, .fin 1, .fin 1, .fin (1 / 5)⟩)] = r.1 ∧
      (∀ e ∈ l₁, (fun e : String × Stats =>
          if e.1 = "Medium" then (1 : ℝ) / 20 else
            if e.1 = "Heavy" then 1 / 5 else 1 / 10) r <
        (fun e : String × Stats =>
          if e.1 = "Medium" then (1 : ℝ) / 20 else
            if e.1 = "Heavy" then 1 / 5 else 1 / 10) e) ∧
      (∀ e ∈ l₂, (fun e : String × Stats =>
          if e.1 = "Medium" then (1 : ℝ) / 20 else
            if e.1 = "Heavy" then 1 / 5 else 1 / 10) r ≤
        (fun e : String × Stats =>
          if e.1 = "Medium" then (1 : ℝ) / 20 else
            if e.1 = "Heavy" then 1 / 5 else 1 / 10) e) :=
  claim5_most_consistent.2 _
    (fun e : String × Stats =>
      if e.1 = "Medium" then (1 : ℝ) / 20 else
        if e.1 = "Heavy" then 1 / 5 else 1 / 10)
    (by
      intro e he
      have hfilt : ([("Lightweight", ⟨.fin 1, .fin 1, .fin 1, .fin (1 / 10)⟩),
          ("Medium", ⟨.fin 1, .fin 1, .fin 1, .fin (1 / 20)⟩),
          ("Heavy", ⟨.fin 1, .fin 1, .fin 1, .fin (1 / 5)⟩)] :
            List (String × Stats)).filter (fun e => e.1 ≠ "Total") =
          [("Lightweight", ⟨.fin 1, .fin 1, .fin 1, .fin (1 / 10)⟩),
           ("Medium", ⟨.fin 1, .fin 1, .fin 1, .fin (1 / 20)⟩),
           ("Heavy", ⟨.fin 1, .fin 1, .fin 1, .fin (1 / 5)⟩)] := rfl
      rw [hfilt] at he
      simp only [List.mem_cons, List.not_mem_nil, or_false] at he
      rcases he with rfl | rfl | rfl <;>
        · simp only [entryCV, jsDiv, String.reduceEq, if_false]
          norm_num)
    (by
      have hfilt : ([("Lightweight", ⟨.fin 1, .fin 1, .fin 1, .fin (1 / 10)⟩),
          ("Medium", ⟨.fin 1, .fin 1, .fin 1, .fin (1 / 20)⟩),
          ("Heavy", ⟨.fin 1, .fin 1, .fin 1, .fin (1 / 5)⟩)] :
            List (String × Stats)).filter (fun e => e.1 ≠ "Total") =
          [("Lightweight", ⟨.fin 1, .fin 1, .fin 1, .fin (1 / 10)⟩),
           ("Medium", ⟨.fin 1, .fin 1, .fin 1, .fin (1 / 20)⟩),
           ("Heavy", ⟨.fin 1, .fin 1, .fin 1, .fin (1 / 5)⟩)] := rfl
      rw [hfilt]
      exact List.cons_ne_nil _ _)

/-! ### Formatting lemmas -/

theorem toFixed_zero_eq (x : ℚ) (n : ℤ) (h : ⌊x + 1 / 2⌋ = n) :
    toFixed 0 x = toString n := by
  subst h
  simp [toFixed]

theorem toFixed_pos_eq (f : ℕ) (hf : f ≠ 0) (x : ℚ) (n : ℤ)
    (h : ⌊x * 10 ^ f + 1 / 2⌋ = n) :
    toFixed f x = toString (n / 10 ^ f) ++ "." ++ decimalDigits f (n % 10 ^ f) := by
  subst h
  simp [toFixed, hf]

theorem toFixedR_pos_eq (f : ℕ) (hf : f ≠ 0) (x : ℝ) (n : ℤ)
    (h : ⌊x * 10 ^ f + 1 / 2⌋ = n) :
    toFixedR f x = toString (n / 10 ^ f) ++ "." ++ decimalDigits f (n % 10 ^ f) := by
  subst h
  simp [toFixedR, hf]

/-- Rounding to the nearest integer with ties towards the larger integer
moves a rational by at most one half. -/
theorem round_half_up_abs_le (x : ℚ) : |(⌊x + 1 / 2⌋ : ℚ) - x| ≤ 1 / 2 := by
  have h1 : (⌊x + 1 / 2⌋ : ℚ) ≤ x + 1 / 2 := Int.floor_le _
  have h2 : x + 1 / 2 < (⌊x + 1 / 2⌋ : ℚ) + 1 := Int.lt_floor_add_one _
  rw [abs_le]
  constructor <;> linarith

/-- C4: formatDuration is a total function on rational durations.  For
ms >= 1000 it renders ms / 1000 with exactly two decimal places (the
integer n below is ms / 10 rounded to the nearest integer, so n / 100 is
ms / 1000 rounded to two decimal places) followed by "s"; for ms < 1000
it renders ms rounded to zero decimal places followed by "ms"; and
formatDuration 999 = "999ms", formatDuration 1000 = "1.00s",
formatDuration 1500 = "1.50s". -/
theorem claim4_formatDuration (ms : ℚ) :
    (1000 ≤ ms →
      ∃ n : ℤ, 100 ≤ n ∧
        formatDuration ms =
          toString (n / 100) ++ "." ++ decimalDigits 2 (n % 100) ++ "s" ∧
        |(n : ℚ) / 100 - ms / 1000| ≤ 1 / 200) ∧
    (ms < 1000 →
      ∃ n : ℤ, formatDuration ms = toString n ++ "ms" ∧ |(n : ℚ) - ms| ≤ 1 / 2) ∧
    formatDuration 999 = "999ms" ∧ formatDuration 1000 = "1.00s" ∧
    formatDuration 1500 = "1.50s" := by
  refine ⟨?_, ?_, ?_, ?_, ?_⟩
  · intro h
    refine ⟨⌊ms / 1000 * 10 ^ 2 + 1 / 2⌋, ?_, ?_, ?_⟩
    · rw [Int.le_floor]
      have h1 : (1 : ℚ) ≤ ms / 1000 := (one_le_div (by norm_num)).mpr h
      push_cast
      nlinarith
    · rw [formatDuration, if_pos h, toFixed_pos_eq 2 (by norm_num) _ _ rfl]
      norm_num
    · have h1 : (⌊ms / 1000 * 10 ^ 2 + 1 / 2⌋ : ℚ) ≤ ms / 1000 * 10 ^ 2 + 1 / 2 :=
        Int.floor_le _
      have h2 : ms / 1000 * 10 ^ 2 + 1 / 2 < (⌊ms / 1000 * 10 ^ 2 + 1 / 2⌋ : ℚ) + 1 :=
        Int.lt_floor_add_one _
      rw [abs_le]
      constructor <;> [linarith; linarith]
  · intro h
    refine ⟨⌊ms + 1 / 2⌋, ?_, round_half_up_abs_le ms⟩
    rw [formatDuration, if_neg (not_le.mpr h), toFixed_zero_eq ms _ rfl]
  · rw [formatDuration, if_neg (by norm_num), toFixed_zero_eq 999 999 (by norm_num)]
    decide
  · rw [formatDuration, if_pos (by norm_num),
      toFixed_pos_eq 2 (by norm_num) _ 100 (by norm_num)]
    decide
  · rw [formatDuration, if_pos (by norm_num),
      toFixed_pos_eq 2 (by norm_num) _ 150 (by norm_num)]
    decide

/-- Witness for C4 at the inputs 1500 and 999. -/
theorem claim4_formatDuration_witness :
    (∃ n : ℤ, 100 ≤ n ∧
      formatDuration 1500 =
        toString (n / 100) ++ "." ++ decimalDigits 2 (n % 100) ++ "s" ∧
      |(n : ℚ) / 100 - 1500 / 1000| ≤ 1 / 200) ∧
    (∃ n : ℤ, formatDuration 999 = toString n ++ "ms" ∧ |(n : ℚ) - 999| ≤ 1 / 2) :=
  ⟨(claim4_formatDuration 1500).1 (by norm_num),
   (claim4_formatDuration 999).2.1 (by norm_num)⟩

/-- C10: every duration in the interval from 999.5 inclusive to 1000
exclusive is rendered as "1000ms" (the zero-decimal rounding of the
millisecond branch reaches the seconds threshold), while 1000 itself is
rendered as "1.00s": both renderings coexist at the unit boundary. -/
theorem claim10_unit_boundary :
    (∀ ms : ℚ, 999.5 ≤ ms → ms < 1000 → formatDuration ms = "1000ms") ∧
      formatDuration 1000 = "1.00s" := by
  constructor
  · intro ms h1 h2
    have hf : ⌊ms + 1 / 2⌋ = 1000 := by
      rw [Int.floor_eq_iff]
      constructor
      · push_cast
        linarith [h1]
      · push_cast
        linarith [h2]
    rw [formatDuration, if_neg (not_le.mpr h2), toFixed_zero_eq ms 1000 hf]
    decide
  · rw [formatDuration, if_pos (by norm_num),
      toFixed_pos_eq 2 (by norm_num) _ 100 (by norm_num)]
    decide

/-- Witness for C10 at the input 999.5. -/
theorem claim10_unit_boundary_witness :
    formatDuration 999.5 = "1000ms" :=
  claim10_unit_boundary.1 999.5 (le_refl _) (by norm_num)

/-- The textual rendering of the ratio is determined by its value. -/
theorem ratioInsightText_of_value (s : BenchmarkStats) (r : JSNum)
    (h : ratioInsight s = .ok r) : ratioInsightText s = jsToFixed 1 r ++ "x" := by
  rw [ratioInsight] at h
  injection h with h
  rw [ratioInsightText, h]

/-- C9: whenever the Lightweight average is a nonzero finite value a and
the Heavy average a finite value b, the ratio insight is exactly b / a,
rendered with one decimal place and an "x" suffix; in particular for the
sequences 10, 20, 30 and 1000, 2000, 3000 the averages are 20 and 2000
and the rendered ratio is "100.0x". -/
theorem claim9_ratio_insight :
    (∀ (s : BenchmarkStats) (a b : ℝ), s.Lightweight.avg = .fin a → a ≠ 0 →
      s.Heavy.avg = .fin b →
      ratioInsight s = .ok (.fin (b / a)) ∧
        ratioInsightText s = toFixedR 1 (b / a) ++ "x") ∧
    (∀ md tot : Stats, ∃ ls hs,
      calculateStats (([10, 20, 30] : List ℝ).map .fin) = .ok ls ∧
      ls.avg = .fin 20 ∧
      calculateStats (([1000, 2000, 3000] : List ℝ).map .fin) = .ok hs ∧
      hs.avg = .fin 2000 ∧
      ratioInsight ⟨ls, md, hs, tot⟩ = .ok (.fin 100) ∧
      ratioInsightText ⟨ls, md, hs, tot⟩ = "100.0x") := by
  have hgen : ∀ (s : BenchmarkStats) (a b : ℝ), s.Lightweight.avg = .fin a →
      a ≠ 0 → s.Heavy.avg = .fin b →
      ratioInsight s = .ok (.fin (b / a)) ∧
        ratioInsightText s = toFixedR 1 (b / a) ++ "x" := by
    intro s a b h1 h2 h3
    have hr : ratioInsight s = .ok (.fin (b / a)) := by
      rw [ratioInsight, h1, h3, jsDiv_fin_of_ne _ _ h2]
    exact ⟨hr, ratioInsightText_of_value s _ hr⟩
  refine ⟨hgen, ?_⟩
  intro md tot
  obtain ⟨ls, hls⟩ : ∃ ls, calculateStats (([10, 20, 30] : List ℝ).map .fin) = .ok ls :=
    ⟨_, calculateStats_cons 10 [20, 30]⟩
  obtain ⟨hs, hhs⟩ :
      ∃ hs, calculateStats (([1000, 2000, 3000] : List ℝ).map .fin) = .ok hs :=
    ⟨_, calculateStats_cons 1000 [2000, 3000]⟩
  have h1 : ls.avg = .fin 20 := by
    have h := (calculateStats_cons 10 [20, 30]).symm.trans hls
    injection h with h
    rw [← h]
    norm_num
  have h2 : hs.avg = .fin 2000 := by
    have h := (calculateStats_cons 1000 [2000, 3000]).symm.trans hhs
    injection h with h
    rw [← h]
    norm_num
  obtain ⟨hr, ht⟩ := hgen ⟨ls, md, hs, tot⟩ 20 2000 h1 (by norm_num) h2
  refine ⟨ls, hs, hls, h1, hhs, h2, ?_, ?_⟩
  · rw [hr]
    norm_num
  · rw [ht, show (2000 : ℝ) / 20 = 100 by norm_num,
      toFixedR_pos_eq 1 one_ne_zero 100 1000 (by rw [Int.floor_eq_iff]; norm_num)]
    decide

/-- Witness for C9 on a record with Lightweight average 2 and Heavy
average 6. -/
theorem claim9_ratio_insight_witness :
    ratioInsight ⟨⟨.fin 2, .fin 2, .fin 2, .fin 0⟩, ⟨.fin 5, .fin 5, .fin 5, .fin 0⟩,
        ⟨.fin 6, .fin 6, .fin 6, .fin 0⟩, ⟨.fin 13, .fin 13, .fin 13, .fin 0⟩⟩ =
      .ok (.fin (6 / 2)) ∧
    ratioInsightText ⟨⟨.fin 2, .fin 2, .fin 2, .fin 0⟩, ⟨.fin 5, .fin 5, .fin 5, .fin 0⟩,
        ⟨.fin 6, .fin 6, .fin 6, .fin 0⟩, ⟨.fin 13, .fin 13, .fin 13, .fin 0⟩⟩ =
      toFixedR 1 (6 / 2) ++ "x" :=
  claim9_ratio_insight.1 _ 2 6 rfl (by norm_num) rfl

end DBBench
